import Mathlib

/-!
Verification development for the building-code checklist judgment engine.

The engine exists in two server implementations inside the repository:
`functions/api/[[path]].js` (the Cloudflare Pages handler; its helpers are
`evalCond`, `ruleMatches`, `evaluateAutoRules`, `buildNeedKeys`,
`computeMissingInputs`, `judgeOneItem`, `appliesToPass`, `mergeJudgeValues`,
`summarizeResults`) and `functions/index.js` (the Firebase handler; its
helpers are `evalCond`, `ruleMatches`, `evaluateFirstMatch`,
`buildMissingInputs`, `passesAppliesTo`, and the inline body of the
`/api/checklists/judge` route).  Both are embedded below; where the two
files define a function with the same name the embedding keeps both under
their distinct source names.

JSON primitive values are modelled by `JsVal`; JavaScript `undefined` is
`Option.none` at the use sites.  Finite JavaScript numbers are modelled by
exact rationals represented as an integer numerator over a positive natural
denominator (`MQ`, compared by cross multiplication so that the
representation is irrelevant), plus explicit `nan`, `inf`, `ninf`
constructors for the non-finite numbers.  `Number(string)` is modelled on
the plain-decimal fragment of its grammar (optional sign, digits, optional
fraction; no exponent, hex or Infinity literals), which covers every string
exercised by the theorems below.
-/

namespace ArchiCheck

/-- An exact rational: integer numerator over a positive natural
denominator.  Not normalized; all numeric comparisons go through cross
multiplication, so two representations of the same value are
interchangeable for the engine. -/
structure MQ where
  num : Int
  den : Nat
  den_pos : 0 < den

/-- Embed an integer. -/
def MQ.ofInt (n : Int) : MQ := ⟨n, 1, Nat.one_pos⟩

instance (n : Nat) : OfNat MQ n := ⟨MQ.ofInt n⟩

/-- Value equality (JS `===` on finite numbers). -/
def mqEq (a b : MQ) : Bool := a.num * (b.den : Int) == b.num * (a.den : Int)

/-- Value order (JS `<=` on finite numbers). -/
def mqLe (a b : MQ) : Bool := a.num * (b.den : Int) ≤ b.num * (a.den : Int)

/-- Strict value order (JS `<` on finite numbers). -/
def mqLt (a b : MQ) : Bool := a.num * (b.den : Int) < b.num * (a.den : Int)

def mqNeg (a : MQ) : MQ := ⟨-a.num, a.den, a.den_pos⟩

def mqAdd (a b : MQ) : MQ :=
  ⟨a.num * b.den + b.num * a.den, a.den * b.den, Nat.mul_pos a.den_pos b.den_pos⟩

def mqSub (a b : MQ) : MQ := mqAdd a (mqNeg b)

/-- Multiplication by an integer (used for the base-10 digit extraction). -/
def mqMulInt (a : MQ) (k : Int) : MQ := ⟨a.num * k, a.den, a.den_pos⟩

/-- Floor of a rational (denominator is positive, so floored integer
division of the numerator is exact). -/
def mqFloor (a : MQ) : Int := a.num.fdiv a.den

/-- The characters the JS string `trim()` removes (the ASCII whitespace
fragment; the engine only ever trims ASCII input). -/
def isJsSpace (c : Char) : Bool :=
  c == ' ' || c == '\t' || c == '\n' || c == '\r' || c == '\x0b' || c == '\x0c'

/-- Models the JS string `trim()` method. -/
def jsTrim (s : String) : String :=
  ⟨((s.data.dropWhile isJsSpace).reverse.dropWhile isJsSpace).reverse⟩

/-- ASCII lower-casing of one character. -/
def lowerChar (c : Char) : Char :=
  if 'A' ≤ c && c ≤ 'Z' then Char.ofNat (c.toNat + 32) else c

/-- Models the JS string `toLowerCase()` method on the ASCII fragment the
engine feeds it (operator and status names). -/
def jsLower (s : String) : String := ⟨s.data.map lowerChar⟩

/-- A JSON/JS primitive value as the engine sees it.  `num` carries a finite
number; `nan`, `inf`, `ninf` are the non-finite numbers; `undefined` is
represented by `Option.none` wherever a value may be absent. -/
inductive JsVal where
  | str (s : String)
  | num (q : MQ)
  | nan
  | inf
  | ninf
  | nullV
  | boolV (b : Bool)

/-- Digits of the terminating decimal expansion of a fraction in `[0,1)`,
fuelled; JS doubles have at most 1074 fractional decimal digits, so fuel
1200 makes this exact on every value a JS number can hold. -/
def decDigits : Nat → MQ → String → String
  | 0, _, acc => acc
  | Nat.succ n, q, acc =>
    if q.num == 0 then acc
    else
      let q10 := mqMulInt q 10
      let d : Int := mqFloor q10
      decDigits n (mqSub q10 (MQ.ofInt d)) (acc ++ toString d.toNat)

/-- Decimal rendering of a nonnegative rational (integer part, then the
fractional digits when any). -/
def qToDecStringNN (q : MQ) : String :=
  let f : Int := mqFloor q
  let fracStr := decDigits 1200 (mqSub q (MQ.ofInt f)) ""
  if fracStr = "" then toString f.toNat else toString f.toNat ++ "." ++ fracStr

/-- Models JS `String(number)` on numbers with terminating decimal
expansions (all doubles are such). -/
def qToDecString (q : MQ) : String :=
  if mqLt q 0 then "-" ++ qToDecStringNN (mqNeg q) else qToDecStringNN q

/-- Models JS `String(v)` on a primitive value. -/
def jsToString : JsVal → String
  | .str s => s
  | .num q => qToDecString q
  | .nan => "NaN"
  | .inf => "Infinity"
  | .ninf => "-Infinity"
  | .nullV => "null"
  | .boolV b => if b then "true" else "false"

/-- Models JS `String(v)` where `v` may be `undefined`. -/
def jsToStringU : Option JsVal → String
  | none => "undefined"
  | some v => jsToString v

/-- JS truthiness of a primitive value. -/
def jsTruthy : JsVal → Bool
  | .str s => s ≠ ""
  | .num q => !(q.num == 0)
  | .nan => false
  | .inf => true
  | .ninf => true
  | .nullV => false
  | .boolV b => b

/-- Models the JS idiom `String(v || "")` (falsy values collapse to `""`). -/
def jsOrEmptyStr (v : Option JsVal) : String :=
  match v with
  | none => ""
  | some w => if jsTruthy w then jsToString w else ""

/-- Models the JS idiom `s || d` on an optional string (absent or empty
falls back to `d`). -/
def jsOrStr (o : Option String) (d : String) : String :=
  match o with
  | some s => if s = "" then d else s
  | none => d

/-- Models JS `===` as `Array.prototype.includes` uses it (SameValueZero);
on the primitives the engine compares this is plain value equality, with
`NaN` matching `NaN`. -/
def jsSVZ : JsVal → JsVal → Bool
  | .str a, .str b => a == b
  | .num a, .num b => mqEq a b
  | .nan, .nan => true
  | .inf, .inf => true
  | .ninf, .ninf => true
  | .nullV, .nullV => true
  | .boolV a, .boolV b => a == b
  | _, _ => false

/-- Numeric value of a digit list (most significant first). -/
def digitsToNat (l : List Char) : Nat :=
  l.foldl (fun acc c => acc * 10 + (c.toNat - 48)) 0

/-- Parse an unsigned decimal literal: digits, optionally followed by a dot
and further digits; at least one digit overall.  Everything else is `none`
(JS `NaN`). -/
def parseDecCore (s : List Char) : Option MQ :=
  let ipart := s.takeWhile Char.isDigit
  let rest := s.dropWhile Char.isDigit
  match rest with
  | [] => if ipart.isEmpty then none else some (MQ.ofInt (digitsToNat ipart))
  | '.' :: frac =>
    if frac.all Char.isDigit && !(ipart.isEmpty && frac.isEmpty) then
      some ⟨(digitsToNat ipart : Int) * (10 : Int) ^ frac.length + (digitsToNat frac : Int),
            10 ^ frac.length, Nat.pos_pow_of_pos _ (by decide)⟩
    else none
  | _ => none

/-- Models JS `Number(string)` restricted to plain decimal literals:
whitespace is trimmed, the empty string is `0`, an optional sign precedes
the digits; strings outside this fragment give `none` (`NaN`). -/
def jsStrToNum (s : String) : Option MQ :=
  let t := jsTrim s
  if t = "" then some 0
  else
    match t.data with
    | '+' :: rest => parseDecCore rest
    | '-' :: rest => (parseDecCore rest).map mqNeg
    | l => parseDecCore l

/-- Embeds `toNum` (identical in both server files): `"" | absentined | null`
give `null`; otherwise `Number(v)` when finite, else `null`. -/
def toNum (v : Option JsVal) : Option MQ :=
  match v with
  | none => none
  | some .nullV => none
  | some (.str s) => if s = "" then none else jsStrToNum s
  | some (.num q) => some q
  | some .nan => none
  | some .inf => none
  | some .ninf => none
  | some (.boolV b) => some (if b then 1 else 0)

/-- Embeds `isMissingValue` / `isMissing` (identical in both server files):
absent or null, a non-finite number, or a string that trims to empty. -/
def isMissingValue (v : Option JsVal) : Bool :=
  match v with
  | none => true
  | some .nullV => true
  | some (.num _) => false
  | some .nan => true
  | some .inf => true
  | some .ninf => true
  | some (.str s) => jsTrim s = ""
  | some (.boolV _) => false

/-- A value set: a JS object mapping input keys to primitive values.  A key
bound to JS `undefined` behaves like an absent key everywhere the engine
reads it, so it is modelled as absent. -/
abbrev ValueSet : Type := List (String × JsVal)

/-- Property read `values?.[key]` (first binding wins, as JS keys are
unique). -/
def vlookup (m : ValueSet) (k : String) : Option JsVal :=
  match m with
  | [] => none
  | (k', v) :: t => if k' = k then some v else vlookup t k

/-- The `value` field of a condition: absent, a primitive, or an array. -/
inductive JsArg where
  | absent
  | val (v : JsVal)
  | arr (l : List JsVal)

/-- JS array-to-string (elements joined by commas, `null` joining as the
empty string), as produced by `String(array)`. -/
def arrJoin (l : List JsVal) : String :=
  match l with
  | [] => ""
  | [v] => match v with | .nullV => "" | w => jsToString w
  | v :: rest =>
    (match v with | .nullV => "" | w => jsToString w) ++ "," ++ arrJoin rest

/-- `toNum(cond.value)` when the value may also be an array: JS coerces an
array through its string form. -/
def argToNum (a : JsArg) : Option MQ :=
  match a with
  | .absent => none
  | .val v => toNum (some v)
  | .arr l => jsStrToNum (arrJoin l)

/-- `String(cond.value)` for the same three shapes. -/
def argToString (a : JsArg) : String :=
  match a with
  | .absent => "undefined"
  | .val v => jsToString v
  | .arr l => arrJoin l

/-- A condition object `{key, op, value}`.  `none` in `key`/`op` models an
absent (or null) field; the source treats an empty string the same way via
its falsiness check. -/
structure Cond where
  key : Option String := none
  op : Option String := none
  value : JsArg := .absent

/-- The JS falsiness test `!cond.key` on an optional string field. -/
def strFalsy (o : Option String) : Bool :=
  match o with
  | none => true
  | some s => s = ""

/-- Embeds `evalCond` (textually identical in `functions/api/[[path]].js`,
`functions/index.js`, and — with `missing`/`present` inlined to the same
effect — `evalCondFront` in `public/script.js`). -/
def evalCond (cond : Option Cond) (values : ValueSet) : Bool :=
  match cond with
  | none => false
  | some c =>
    if strFalsy c.key || strFalsy c.op then false
    else
      let op := jsLower (jsTrim (c.op.getD ""))
      let key := jsTrim (c.key.getD "")
      let raw := vlookup values key
      if op = "missing" then isMissingValue raw
      else if op = "present" then !(isMissingValue raw)
      else if op = "in" || op = "not_in" then
        let arr := match c.value with | .arr l => l | _ => []
        let hit := (arr.map jsToString).contains (jsToStringU raw)
        if op = "in" then hit else !hit
      else
        let vNum := toNum raw
        let tNum := argToNum c.value
        if op = "eq" then
          match vNum, tNum with
          | some a, some b => mqEq a b
          | _, _ => jsToStringU raw == argToString c.value
        else if op = "neq" then
          match vNum, tNum with
          | some a, some b => !(mqEq a b)
          | _, _ => !(jsToStringU raw == argToString c.value)
        else
          match vNum, tNum with
          | some a, some b =>
            if op = "lt" then mqLt a b
            else if op = "lte" then mqLe a b
            else if op = "gt" then mqLt b a
            else if op = "gte" then mqLe b a
            else false
          | _, _ => false

/-- An auto rule `{id?, when | when_all | when_any, result, message,
priority?}`.  `none` models an absent (or non-array, for the list fields)
field. -/
structure Rule where
  id : Option String := none
  when : Option Cond := none
  when_all : Option (List Cond) := none
  when_any : Option (List Cond) := none
  result : Option String := none
  message : Option String := none
  priority : Option JsVal := none

/-- Embeds `ruleMatches` (identical in both server files): `when` first,
else a non-empty `when_all` conjunction, else a non-empty `when_any`
disjunction, else no match. -/
def ruleMatches (ro : Option Rule) (values : ValueSet) : Bool :=
  match ro with
  | none => false
  | some r =>
    match r.when with
    | some c => evalCond (some c) values
    | none =>
      match r.when_all with
      | some (c :: cs) => (c :: cs).all fun d => evalCond (some d) values
      | _ =>
        match r.when_any with
        | some (c :: cs) => (c :: cs).any fun d => evalCond (some d) values
        | _ => false

/-- `toNum(r.priority) ?? 0`, the priority key both sort comparators use. -/
def rulePriorityOf (r : Rule) : MQ := (toNum r.priority).getD 0

/-- Whether `a` may be placed before `b` by the comparator
`(toNum(b.priority) ?? 0) - (toNum(a.priority) ?? 0)` (descending by
priority). -/
def pLe (a b : Rule) : Bool := mqLe (rulePriorityOf b) (rulePriorityOf a)

/-- Insert a rule before the first element it may precede (strictly earlier
elements of the original list are inserted later, so ties keep original
order). -/
def insertByPrio (r : Rule) : List Rule → List Rule
  | [] => [r]
  | x :: xs => if pLe r x then r :: x :: xs else x :: insertByPrio r xs

/-- The stable descending-priority sort `rules.slice().sort((a, b) =>
(toNum(b.priority) ?? 0) - (toNum(a.priority) ?? 0))`.  JS `Array.sort` is
stable and the comparator is a total preorder, so its output is the unique
stable sort; a right-fold insertion sort computes exactly that order. -/
def sortRules : List Rule → List Rule
  | [] => []
  | r :: rs => insertByPrio r (sortRules rs)

/-- The precedence relation used by the sorted order. -/
def PR (a b : Rule) : Prop := pLe a b = true

/-- Embeds `normalizeStatus` (identical in both server files; also
`normalizeStatus` in `public/script.js`). -/
def normalizeStatus (s : Option String) : String :=
  let v := jsLower (jsTrim (jsOrStr s ""))
  if v = "allow" then "allow"
  else if v = "deny" then "deny"
  else if v = "conditional" then "conditional"
  else if v = "need_input" then "need_input"
  else if v = "unknown" then "unknown"
  else if v = "warn" then "conditional"
  else "unknown"

/-- The record a matched rule is returned as: `{result: normalized status,
message trimmed, rule_id: r.id || null, priority: toNum(r.priority) ?? 0}`. -/
structure MatchResult where
  result : String
  message : String
  rule_id : Option String
  priority : MQ

/-- Builds the match record from a rule, exactly as both loops do. -/
def mkMatchResult (r : Rule) : MatchResult :=
  { result := normalizeStatus r.result
    message := jsTrim (jsOrStr r.message "")
    rule_id := match r.id with | some s => if s = "" then none else some s | none => none
    priority := rulePriorityOf r }

/-- Embeds `evaluateFirstMatch(autoRules, values)` from
`functions/index.js`: sort by priority descending (stable), return the
first matching rule's record, else null.  `none` for `autoRules` models a
non-array argument (`Array.isArray` guard). -/
def evaluateFirstMatch (autoRules : Option (List Rule)) (values : ValueSet) :
    Option MatchResult :=
  let rules := autoRules.getD []
  ((sortRules rules).find? fun r => ruleMatches (some r) values).map mkMatchResult

/-- The rule-engine record for one checklist id: `rule_set`, `auto_rules`,
`optional_inputs`. -/
structure RuleSet where
  default_result : Option String := none
  default_message : Option String := none

structure EngineItem where
  id : Option String := none
  rule_set : Option RuleSet := none
  auto_rules : Option (List Rule) := none
  optional_inputs : Option (List JsVal) := none

/-- Embeds `evaluateAutoRules(engineItem, values)` from
`functions/api/[[path]].js`: same sort-and-first-match loop, with an early
null return when the rule list is empty. -/
def evaluateAutoRules (engineItem : Option EngineItem) (values : ValueSet) :
    Option MatchResult :=
  let rules := match engineItem with | some e => e.auto_rules.getD [] | none => []
  if rules.isEmpty then none
  else ((sortRules rules).find? fun r => ruleMatches (some r) values).map mkMatchResult

/-- One declared input of a checklist item: either a bare key string or a
structured `{key, label}` descriptor (the `type`/`placeholder` fields are
never read by the engine and are omitted). -/
inductive InputDecl where
  | bare (s : String)
  | field (key : Option String) (label : Option String)

/-- The optional `applies_to` predicate of a checklist item.  `none` on a
bound models an absent or null field (the source tests `!= null`); `none`
on a list field models an absent or non-array field. -/
structure AppliesTo where
  zoning_in : Option (List JsVal) := none
  use_in : Option (List JsVal) := none
  jurisdiction_in : Option (List JsVal) := none
  min_floors : Option JsVal := none
  min_height_m : Option JsVal := none
  min_gross_area_m2 : Option JsVal := none

/-- A checklist item definition, restricted to the fields the judgment
engine reads (`title`, `why`, `refs`, `category`, `logic_level` are
display-only). -/
structure ChecklistItem where
  id : Option String := none
  inputs : Option (List InputDecl) := none
  applies_to : Option AppliesTo := none

/-- An evaluation context `{zoning, use, jurisdiction, floors?, height_m?,
gross_area_m2?}`. -/
structure Ctx where
  zoning : Option JsVal := none
  use : Option JsVal := none
  jurisdiction : Option JsVal := none
  floors : Option JsVal := none
  height_m : Option JsVal := none
  gross_area_m2 : Option JsVal := none

/-- `Array.isArray(x) && x.length > 0` on an optional list field. -/
def nonEmptyL {α : Type} (o : Option (List α)) : Bool :=
  match o with
  | some (_ :: _) => true
  | _ => false

/-- Embeds `includesStr(arr, s)` from `functions/api/[[path]].js`: member
strings and the probe are compared after `String(·).trim()`. -/
def includesStr (arr : Option (List JsVal)) (s : Option JsVal) : Bool :=
  match arr with
  | none => true
  | some [] => true
  | some l => (l.map fun x => jsTrim (jsToString x)).contains (jsTrim (jsOrEmptyStr s))

/-- The three set-membership gates of `appliesToPass`, in source order. -/
def pathMemberPass (a : AppliesTo) (ctx : Ctx) : Bool :=
  if nonEmptyL a.zoning_in && !(includesStr a.zoning_in ctx.zoning) then false
  else if nonEmptyL a.use_in && !(includesStr a.use_in ctx.use) then false
  else if nonEmptyL a.jurisdiction_in && !(includesStr a.jurisdiction_in ctx.jurisdiction) then false
  else true

/-- Third numeric gate of `appliesToPass` (`min_height_m`, checked last). -/
def pathHeightCheck (a : AppliesTo) (curHeight : Option MQ) : Bool :=
  match a.min_height_m with
  | none => true
  | some mv =>
    match toNum (some mv) with
    | none => true
    | some th =>
      match curHeight with
      | none => true
      | some cur => !(mqLt cur th)

/-- Second numeric gate of `appliesToPass` (`min_floors`); an unknown
current value returns `true` immediately, skipping the height gate. -/
def pathFloorsCheck (a : AppliesTo) (curFloors curHeight : Option MQ) : Bool :=
  match a.min_floors with
  | none => pathHeightCheck a curHeight
  | some mv =>
    match toNum (some mv) with
    | none => pathHeightCheck a curHeight
    | some th =>
      match curFloors with
      | none => true
      | some cur => if mqLt cur th then false else pathHeightCheck a curHeight

/-- First numeric gate of `appliesToPass` (`min_gross_area_m2`); an unknown
current value returns `true` immediately, skipping the floors and height
gates. -/
def pathAreaCheck (a : AppliesTo) (curArea curFloors curHeight : Option MQ) : Bool :=
  match a.min_gross_area_m2 with
  | none => pathFloorsCheck a curFloors curHeight
  | some mv =>
    match toNum (some mv) with
    | none => pathFloorsCheck a curFloors curHeight
    | some th =>
      match curArea with
      | none => true
      | some cur => if mqLt cur th then false else pathFloorsCheck a curFloors curHeight

/-- Embeds `appliesToPass(item, ctx)` from `functions/api/[[path]].js`:
membership gates, then the numeric gates in source order
(area, floors, height), each leniently returning `true` as soon as its
context metric is unknown. -/
def appliesToPass (item : Option ChecklistItem) (ctx : Ctx) : Bool :=
  match item with
  | none => true
  | some it =>
    match it.applies_to with
    | none => true
    | some a =>
      if pathMemberPass a ctx then
        pathAreaCheck a (toNum ctx.gross_area_m2) (toNum ctx.floors) (toNum ctx.height_m)
      else false

/-- One numeric gate of `passesAppliesTo` from `functions/index.js`:
`if (th != null && (cur == null || cur < th)) return false` — an unknown
current value excludes just like a failing one. -/
def indexNumCheck (bound : Option JsVal) (cur : Option MQ) : Bool :=
  match bound with
  | none => true
  | some mv =>
    match toNum (some mv) with
    | none => true
    | some th =>
      match cur with
      | none => false
      | some c => !(mqLt c th)

/-- Embeds `passesAppliesTo(item, ctx)` from `functions/index.js`:
membership via untrimmed `includes(String(ctx.x || ""))`, then the three
numeric gates (floors, height, area), each excluding when the context
metric is unknown or below the bound. -/
def passesAppliesTo (item : Option ChecklistItem) (ctx : Ctx) : Bool :=
  match item with
  | none => true
  | some it =>
    match it.applies_to with
    | none => true
    | some a =>
      if nonEmptyL a.zoning_in &&
          !((a.zoning_in.getD []).any fun v => jsSVZ v (.str (jsOrEmptyStr ctx.zoning))) then false
      else if nonEmptyL a.use_in &&
          !((a.use_in.getD []).any fun v => jsSVZ v (.str (jsOrEmptyStr ctx.use))) then false
      else if nonEmptyL a.jurisdiction_in &&
          !((a.jurisdiction_in.getD []).any fun v => jsSVZ v (.str (jsOrEmptyStr ctx.jurisdiction))) then false
      else if !(indexNumCheck a.min_floors (toNum ctx.floors)) then false
      else if !(indexNumCheck a.min_height_m (toNum ctx.height_m)) then false
      else if !(indexNumCheck a.min_gross_area_m2 (toNum ctx.gross_area_m2)) then false
      else true

/-- One missing-input entry `{key, label}`. -/
structure MissingInput where
  key : String
  label : String
deriving DecidableEq, Repr

/-- Embeds `buildNeedKeys(checkItem, engineItem)` from
`functions/api/[[path]].js`: maps each declared input to a key (a bare
string input IS its key; a structured input contributes `x?.key`), drops
falsy entries, and removes the engine item's truthy `optional_inputs`
(stringified). -/
def buildNeedKeys (checkItem : Option ChecklistItem) (engineItem : Option EngineItem) :
    List String :=
  let inputs := match checkItem with | some c => c.inputs.getD [] | none => []
  let keys := inputs.filterMap fun x =>
    match x with
    | .bare s => if s = "" then none else some s
    | .field k _ => match k with
      | some s => if s = "" then none else some s
      | none => none
  let optional :=
    ((match engineItem with | some e => e.optional_inputs.getD [] | none => []).filter
      jsTruthy).map jsToString
  keys.filter fun k => !(optional.contains k)

/-- Embeds `computeMissingInputs(needKeys, values)` from
`functions/api/[[path]].js`: every need key whose value is missing yields
`{key: k, label: k}` — the label is the key itself. -/
def computeMissingInputs (needKeys : List String) (values : ValueSet) :
    List MissingInput :=
  needKeys.filterMap fun k =>
    if isMissingValue (vlookup values k) then some ⟨k, k⟩ else none

/-- Embeds `buildMissingInputs(checkItem, values, optionalKeys)` from
`functions/index.js`: bare string inputs are skipped; a structured input
with a non-empty trimmed key not in `optionalKeys` and a missing value
yields `{key, label: String(inp.label || key)}`. -/
def buildMissingInputs (checkItem : Option ChecklistItem) (values : ValueSet)
    (optionalKeys : List JsVal) : List MissingInput :=
  let inputs := match checkItem with | some c => c.inputs.getD [] | none => []
  let opt := optionalKeys.map jsToString
  inputs.filterMap fun inp =>
    match inp with
    | .bare _ => none
    | .field k lab =>
      let key := jsTrim (jsOrStr k "")
      if key = "" then none
      else if opt.contains key then none
      else if isMissingValue (vlookup values key) then
        some ⟨key, jsOrStr lab key⟩
      else none

/-- The record `judgeOneItem` returns (`matched_rule_id`/`priority` of the
judge route rows are projections of `judge`). -/
structure JudgedItem where
  id : Option String
  status : String
  message : String
  missing_inputs : List MissingInput
  judge : Option MatchResult

/-- The default status/message pair of `judgeOneItem`:
`normalizeStatus(ruleSet.default_result || "conditional")` and
`String(ruleSet.default_message || "⚠️ 추가 검토가 필요합니다.").trim()`,
where `ruleSet` is `engineItem?.rule_set || an empty object`. -/
def judgeDefaults (engineItem : Option EngineItem) : String × String :=
  let ruleSet := match engineItem with
    | some e => e.rule_set.getD ⟨none, none⟩
    | none => ⟨none, none⟩
  (normalizeStatus (some (jsOrStr ruleSet.default_result "conditional")),
   jsTrim (jsOrStr ruleSet.default_message "⚠️ 추가 검토가 필요합니다."))

/-- The pre-guard status/message of `judgeOneItem`: the matched rule's
(normalized) result and (trimmed) message when truthy, else the
defaults. -/
def judgeResolved (engineItem : Option EngineItem) (hit : Option MatchResult) :
    String × String :=
  let d := judgeDefaults engineItem
  (match hit with
    | some h => if h.result ≠ "" then normalizeStatus (some h.result) else d.1
    | none => d.1,
   match hit with
    | some h => if h.message ≠ "" then jsTrim h.message else d.2
    | none => d.2)

/-- Embeds `judgeOneItem(checkItem, engineItem, values,
{forceNeedInputOnMissing})` from `functions/api/[[path]].js`: resolve the
status and message from the first matching auto rule or the defaults,
optionally force `need_input` when inputs are missing (and the status is
not `deny`), then apply the data-integrity guard that downgrades a
`need_input` status with no missing inputs to `conditional`. -/
def judgeOneItem (checkItem : ChecklistItem) (engineItem : Option EngineItem)
    (values : ValueSet) (forceNeedInputOnMissing : Bool) : JudgedItem :=
  let d := judgeDefaults engineItem
  let needKeys := buildNeedKeys (some checkItem) engineItem
  let missing := computeMissingInputs needKeys values
  let hit := evaluateAutoRules engineItem values
  let r := judgeResolved engineItem hit
  let s1 :=
    if forceNeedInputOnMissing && !missing.isEmpty && r.1 ≠ "deny" then
      ("need_input", if r.2 = "" then "❓ 입력이 필요합니다." else r.2)
    else r
  let s2 :=
    if s1.1 = "need_input" && missing.isEmpty then
      ("conditional", if s1.2 = "" then d.2 else s1.2)
    else s1
  { id := checkItem.id, status := s2.1, message := s2.2,
    missing_inputs := missing, judge := hit }

/-- The fallback engine record the `[[path]].js` routes synthesize for a
checklist id with no rule-engine entry. -/
def fallbackEngineFor (id : String) : EngineItem :=
  { id := some id
    rule_set := some ⟨some "conditional", some "⚠️ 추가 검토가 필요합니다."⟩
    auto_rules := some []
    optional_inputs := some [] }

/-- One row of the `[[path]].js` `/api/checklists/judge` results map:
look up the engine item by id (`eng || fallbackEngine`) and run
`judgeOneItem` with `forceNeedInputOnMissing: false`. -/
def pathRouteJudgeItem (it : ChecklistItem) (eng : Option EngineItem)
    (values : ValueSet) : JudgedItem :=
  judgeOneItem it (some (eng.getD (fallbackEngineFor (jsOrStr it.id "")))) values false

/-- One row of the `functions/index.js` `/api/checklists/judge` results
map: `eng = ruleMap.get(id) || an empty object`; status falls back to
`"unknown"` with an empty message when no rule matches and there is no
`rule_set`; `missing_inputs` is computed only when the status is
`need_input`. -/
def judgeRouteItem (it : ChecklistItem) (eng : Option EngineItem)
    (values : ValueSet) : JudgedItem :=
  let rule_set : Option RuleSet := eng.bind (·.rule_set)
  let auto_rules : Option (List Rule) := eng.bind (·.auto_rules)
  let optional_inputs : List JsVal := (eng.bind (·.optional_inputs)).getD []
  let judged := evaluateFirstMatch auto_rules values
  let sm :=
    match judged with
    | some j => (normalizeStatus (some j.result), jsOrStr (some j.message) "")
    | none =>
      match rule_set with
      | some rs => (normalizeStatus rs.default_result, jsTrim (jsOrStr rs.default_message ""))
      | none => ("unknown", "")
  let missing :=
    if sm.1 = "need_input" then buildMissingInputs (some it) values optional_inputs else []
  { id := it.id, status := sm.1, message := sm.2, missing_inputs := missing,
    judge := judged }

/-- Embeds `mergeJudgeValues(ctx, values)` from `functions/api/[[path]].js`:
copies the value set, then fills each of the six well-known keys from the
context only when the key is still undefined (truthy strings trimmed;
numerics only when they parse). -/
def setIfAbsent (m : ValueSet) (k : String) (v : JsVal) : ValueSet :=
  match vlookup m k with
  | some _ => m
  | none => m ++ [(k, v)]

def mergeStrField (m : ValueSet) (k : String) (v : Option JsVal) : ValueSet :=
  match v with
  | some w => if jsTruthy w then setIfAbsent m k (.str (jsTrim (jsToString w))) else m
  | none => m

def mergeNumField (m : ValueSet) (k : String) (v : Option JsVal) : ValueSet :=
  match toNum v with
  | some q => setIfAbsent m k (.num q)
  | none => m

def mergeJudgeValues (ctx : Ctx) (values : ValueSet) : ValueSet :=
  let m := values
  let m := mergeStrField m "zoning" ctx.zoning
  let m := mergeStrField m "use" ctx.use
  let m := mergeStrField m "jurisdiction" ctx.jurisdiction
  let m := mergeNumField m "floors" ctx.floors
  let m := mergeNumField m "height_m" ctx.height_m
  let m := mergeNumField m "gross_area_m2" ctx.gross_area_m2
  m

/-- The five status buckets of `summarizeResults`. -/
structure Counts where
  allow : Nat := 0
  conditional : Nat := 0
  deny : Nat := 0
  need_input : Nat := 0
  unknown : Nat := 0
deriving DecidableEq, Repr

/-- `counts[st]++`, with the `counts[st] == null` fallback bumping
`unknown` (unreachable for normalized statuses, kept for fidelity). -/
def bumpCounts (c : Counts) (st : String) : Counts :=
  if st = "allow" then { c with allow := c.allow + 1 }
  else if st = "conditional" then { c with conditional := c.conditional + 1 }
  else if st = "deny" then { c with deny := c.deny + 1 }
  else if st = "need_input" then { c with need_input := c.need_input + 1 }
  else if st = "unknown" then { c with unknown := c.unknown + 1 }
  else { c with unknown := c.unknown + 1 }

/-- Adds each entry's trimmed non-empty key to an insertion-ordered
de-duplicated list (the JS `Set` keeps insertion order and `Array.from`
reads it back in that order). -/
def addMissingKeys (acc : List String) (miss : List MissingInput) : List String :=
  miss.foldl
    (fun acc m =>
      let k := jsTrim (jsOrStr (some m.key) "")
      if k = "" then acc
      else if acc.contains k then acc
      else acc ++ [k])
    acc

/-- The summary record of `summarizeResults`. -/
structure Summary where
  status : String
  total : Nat
  counts : Counts
  missing_inputs : List String
  note : Option String
deriving DecidableEq, Repr

/-- Embeds `summarizeResults(results)` from `functions/api/[[path]].js`:
one pass bumps the bucket of each row's normalized status and collects the
de-duplicated missing keys; the overall status is picked by the priority
deny > need_input > conditional > allow, defaulting to unknown. -/
def summarizeResults (results : List JudgedItem) : Summary :=
  let acc := results.foldl
    (fun (acc : Counts × List String) r =>
      (bumpCounts acc.1 (normalizeStatus (some r.status)),
       addMissingKeys acc.2 r.missing_inputs))
    (⟨0, 0, 0, 0, 0⟩, [])
  let status :=
    if acc.1.deny > 0 then "deny"
    else if acc.1.need_input > 0 then "need_input"
    else if acc.1.conditional > 0 then "conditional"
    else if acc.1.allow > 0 then "allow"
    else "unknown"
  { status := status, total := results.length, counts := acc.1,
    missing_inputs := acc.2,
    note := if results.length = 0 then
        some "적용되는 체크리스트 항목이 없습니다. (조건/필터 결과)"
      else none }

/-! Specification-side definitions, used to state the claims against the
embedded source functions. -/

/-- How many judged items normalize into the given status bucket. -/
def specCount (rs : List JudgedItem) (st : String) : Nat :=
  rs.countP fun r => normalizeStatus (some r.status) == st

/-- First-occurrence de-duplication, written from the spec words
"de-duplicated union ... in insertion order". -/
def dedupKeys (l : List String) : List String :=
  l.foldl (fun acc k => if acc.contains k then acc else acc ++ [k]) []

/-- Sum of the five status buckets. -/
def sumCounts (c : Counts) : Nat :=
  c.allow + c.conditional + c.deny + c.need_input + c.unknown

/-- A missing-input entry whose key is already trimmed and non-empty (the
shape every key produced by `buildMissingInputs` in fact has). -/
def cleanKey (m : MissingInput) : Bool :=
  (jsTrim m.key == m.key) && !(m.key == "")

/-- A declared input whose structured key, if any, carries no surrounding
whitespace. -/
def inputKeyTrimmed : InputDecl → Bool
  | .bare _ => true
  | .field none _ => true
  | .field (some s) _ => jsTrim s == s

/-- The missing-input computation as the spec states it for
`buildMissingInputs`: skip bare-string inputs; a structured `{key, label}`
whose key is not optional and whose value is missing contributes
`{key, label}` (label falling back to the key when absent or empty), in
declaration order. -/
def claimMissing (inputs : List InputDecl) (optional : List String)
    (values : ValueSet) : List MissingInput :=
  inputs.filterMap fun inp =>
    match inp with
    | .bare _ => none
    | .field k lab =>
      match k with
      | none => none
      | some key =>
        if key = "" then none
        else if optional.contains key then none
        else if isMissingValue (vlookup values key) then
          some ⟨key, jsOrStr lab key⟩
        else none

/-! Concrete fixtures for witnesses and counterexamples. -/

/-- An item whose only applicability constraint is `min_floors: 2`. -/
def cexItemMinFloors : ChecklistItem :=
  { id := some "cex1", applies_to := some { min_floors := some (.num 2) } }

/-- An item with an area bound of 100 and a floors bound of 5. -/
def cexItemAreaFloors : ChecklistItem :=
  { id := some "cex6"
    applies_to := some { min_floors := some (.num 5), min_gross_area_m2 := some (.num 100) } }

/-- A context knowing only `floors = 2`. -/
def cexCtxFloors2 : Ctx := { floors := some (.num 2) }

/-- An item declaring no inputs. -/
def cexItemNoInputs : ChecklistItem := { id := some "i3", inputs := some [] }

/-- An engine entry whose only rule fires on a missing `x` and yields
`need_input` with message `"m"`. -/
def cexEngineNeedInput : EngineItem :=
  { auto_rules := some
      [{ when := some ⟨some "x", some "missing", .absent⟩
         result := some "need_input", message := some "m" }] }

/-- A low-priority matching rule (declared first). -/
def wRuleLow : Rule :=
  { id := some "low", when := some ⟨some "x", some "missing", .absent⟩
    result := some "allow", message := some "low wins"
    priority := some (.num 1) }

/-- A strictly higher-priority matching rule (declared last). -/
def wRuleHigh : Rule :=
  { id := some "hi", when := some ⟨some "x", some "missing", .absent⟩
    result := some "deny", message := some "high wins"
    priority := some (.num 10) }

/-- An item declaring one structured input with key `a` and label `L`. -/
def cexItemLabeled : ChecklistItem :=
  { id := some "c9", inputs := some [.field (some "a") (some "L")] }

/-- An item declaring one bare-string input `b`. -/
def cexItemBare : ChecklistItem :=
  { id := some "c9b", inputs := some [.bare "b"] }

/-- The five judged rows of spec Scenario E (statuses allow, conditional,
need_input, allow, unknown). -/
def scenERows : List JudgedItem :=
  [⟨some "1", "allow", "", [], none⟩,
   ⟨some "2", "conditional", "", [], none⟩,
   ⟨some "3", "need_input", "", [⟨"k", "k"⟩], none⟩,
   ⟨some "4", "allow", "", [], none⟩,
   ⟨some "5", "unknown", "", [], none⟩]

/-! Helper lemmas about the priority order and the stable sort. -/

theorem mqLe_total (a b : MQ) : mqLe a b = true ∨ mqLe b a = true := by
  simp only [mqLe, decide_eq_true_eq]
  omega

theorem mqLe_trans {a b c : MQ} (h1 : mqLe a b = true) (h2 : mqLe b c = true) :
    mqLe a c = true := by
  simp only [mqLe, decide_eq_true_eq] at h1 h2 ⊢
  have hb : (0 : Int) < b.den := Int.natCast_pos.mpr b.den_pos
  have ha : (0 : Int) < a.den := Int.natCast_pos.mpr a.den_pos
  have hc : (0 : Int) < c.den := Int.natCast_pos.mpr c.den_pos
  nlinarith

theorem mqLt_mqLe_absurd {p q : MQ} (h1 : mqLt p q = true) (h2 : mqLe q p = true) :
    False := by
  simp only [mqLt, mqLe, decide_eq_true_eq] at h1 h2
  omega

theorem insertByPrio_perm (r : Rule) (l : List Rule) :
    (insertByPrio r l).Perm (r :: l) := by
  induction l with
  | nil => simp [insertByPrio]
  | cons x xs ih =>
    unfold insertByPrio
    by_cases h : pLe r x = true
    · simp [h]
    · rw [if_neg h]
      exact (ih.cons x).trans (List.Perm.swap r x xs)

theorem sortRules_perm (l : List Rule) : (sortRules l).Perm l := by
  induction l with
  | nil => simp [sortRules]
  | cons r rs ih =>
    exact (insertByPrio_perm r (sortRules rs)).trans (ih.cons r)

theorem insertByPrio_pairwise (r : Rule) (l : List Rule) (h : l.Pairwise PR) :
    (insertByPrio r l).Pairwise PR := by
  induction l with
  | nil => simp [insertByPrio, List.pairwise_cons, PR]
  | cons x xs ih =>
    rcases List.pairwise_cons.mp h with ⟨hx, hxs⟩
    unfold insertByPrio
    by_cases hle : pLe r x = true
    · rw [if_pos hle]
      refine List.pairwise_cons.mpr ⟨?_, h⟩
      intro y hy
      rcases List.mem_cons.mp hy with rfl | hy
      · exact hle
      · exact mqLe_trans (hx y hy) hle
    · rw [if_neg hle]
      refine List.pairwise_cons.mpr ⟨?_, ih hxs⟩
      intro y hy
      have hy' : y ∈ r :: xs := (insertByPrio_perm r xs).mem_iff.mp hy
      rcases List.mem_cons.mp hy' with rfl | hy'
      · rcases mqLe_total (rulePriorityOf y) (rulePriorityOf x) with h' | h'
        · exact h'
        · exact absurd h' hle
      · exact hx y hy'

theorem sortRules_pairwise (l : List Rule) : (sortRules l).Pairwise PR := by
  induction l with
  | nil => simp [sortRules]
  | cons r rs ih => exact insertByPrio_pairwise r (sortRules rs) ih

theorem sortRules_sorted_id (l : List Rule) (h : l.Pairwise PR) :
    sortRules l = l := by
  induction l with
  | nil => rfl
  | cons r rs ih =>
    rcases List.pairwise_cons.mp h with ⟨hr, hrs⟩
    unfold sortRules
    rw [ih hrs]
    cases rs with
    | nil => rfl
    | cons x xs =>
      unfold insertByPrio
      rw [if_pos (show pLe r x = true from hr x (List.mem_cons_self x xs))]

theorem find_head_strict_max {p : Rule → Bool} {l : List Rule} {r : Rule}
    (hsort : l.Pairwise PR) (hmem : r ∈ l) (hp : p r = true)
    (hmax : ∀ y ∈ l, y = r ∨ mqLt (rulePriorityOf y) (rulePriorityOf r) = true) :
    l.find? p = some r := by
  cases l with
  | nil => cases hmem
  | cons a t =>
    rcases hmax a (List.mem_cons_self a t) with rfl | hlt
    · simp [List.find?_cons, hp]
    · exfalso
      have hrt : r ∈ t := by
        rcases List.mem_cons.mp hmem with rfl | h
        · exfalso
          simp only [mqLt, decide_eq_true_eq] at hlt
          omega
        · exact h
      have hle : PR a r := (List.pairwise_cons.mp hsort).1 r hrt
      exact mqLt_mqLe_absurd hlt hle

/-- C5: `selectFirstMatch` (the `evaluateFirstMatch` / `evaluateAutoRules`
loops) returns null on an empty or never-matching rule list, returns the
first match of the stable priority-descending order as
`{result: normalized, message, rule_id, priority}` (soundness and
completeness), always returns a matching rule whose priority strictly
dominates all others regardless of its list position, leaves an already
priority-sorted list unreordered (ties keep original order), and the two
implementations agree. -/
theorem find?_decomp {α : Type} (p : α → Bool) :
    ∀ (l : List α) (b : α), l.find? p = some b →
      ∃ l1 l2, l = l1 ++ b :: l2 ∧ ∀ a ∈ l1, p a = false := by
  intro l
  induction l with
  | nil => intro b h; cases h
  | cons a t ih =>
    intro b h
    rw [List.find?_cons] at h
    cases hp : p a with
    | true =>
      rw [hp] at h
      cases h
      exact ⟨[], t, rfl, by intro x hx; cases hx⟩
    | false =>
      rw [hp] at h
      simp only [cond_false] at h
      obtain ⟨l1, l2, he, hall⟩ := ih b h
      refine ⟨a :: l1, l2, by rw [he]; rfl, ?_⟩
      intro x hx
      rcases List.mem_cons.mp hx with rfl | hx
      · exact hp
      · exact hall x hx

theorem C5_select_first_match :
    (∀ values : ValueSet, evaluateFirstMatch (some []) values = none ∧
        evaluateFirstMatch none values = none) ∧
    (∀ (rules : List Rule) (values : ValueSet),
        (∀ r ∈ rules, ruleMatches (some r) values = false) →
        evaluateFirstMatch (some rules) values = none) ∧
    (∀ (rules : List Rule) (values : ValueSet) (m : MatchResult),
        evaluateFirstMatch (some rules) values = some m →
        ∃ r ∈ rules, ruleMatches (some r) values = true ∧ m = mkMatchResult r) ∧
    (∀ (rules : List Rule) (values : ValueSet) (r : Rule),
        r ∈ rules → ruleMatches (some r) values = true →
        (evaluateFirstMatch (some rules) values).isSome = true) ∧
    (∀ (rules : List Rule) (values : ValueSet) (r : Rule),
        r ∈ rules → ruleMatches (some r) values = true →
        (∀ y ∈ rules, y = r ∨ mqLt (rulePriorityOf y) (rulePriorityOf r) = true) →
        evaluateFirstMatch (some rules) values = some (mkMatchResult r)) ∧
    (∀ rules : List Rule, rules.Pairwise PR → sortRules rules = rules) ∧
    (∀ (e : EngineItem) (values : ValueSet),
        evaluateAutoRules (some e) values = evaluateFirstMatch e.auto_rules values) ∧
    (∀ (rules : List Rule) (values : ValueSet) (m : MatchResult),
        evaluateFirstMatch (some rules) values = some m →
        ∃ r l1 l2, sortRules rules = l1 ++ r :: l2 ∧
          (∀ y ∈ l1, ruleMatches (some y) values = false) ∧
          ruleMatches (some r) values = true ∧ m = mkMatchResult r) := by
  refine ⟨?_, ?_, ?_, ?_, ?_, ?_, ?_, ?_⟩
  · exact fun values => ⟨rfl, rfl⟩
  · intro rules values h
    unfold evaluateFirstMatch
    simp only [Option.getD_some]
    have hnone : (sortRules rules).find? (fun r => ruleMatches (some r) values) = none := by
      rw [List.find?_eq_none]
      intro x hx
      simp [h x ((sortRules_perm rules).mem_iff.mp hx)]
    rw [hnone]
    rfl
  · intro rules values m hm
    unfold evaluateFirstMatch at hm
    simp only [Option.getD_some] at hm
    obtain ⟨r, hfind, hmk⟩ := Option.map_eq_some'.mp hm
    have hp := @List.find?_some _ (fun r => ruleMatches (some r) values) r _ hfind
    exact ⟨r, (sortRules_perm rules).mem_iff.mp (List.mem_of_find?_eq_some hfind),
      by simpa using hp, hmk.symm⟩
  · intro rules values r hr hmatch
    unfold evaluateFirstMatch
    simp only [Option.getD_some]
    have hfind : ((sortRules rules).find? fun r => ruleMatches (some r) values).isSome :=
      List.find?_isSome.mpr ⟨r, (sortRules_perm rules).mem_iff.mpr hr, hmatch⟩
    obtain ⟨m, hm⟩ := Option.isSome_iff_exists.mp hfind
    simp [hm]
  · intro rules values r hr hmatch hmax
    unfold evaluateFirstMatch
    simp only [Option.getD_some]
    rw [find_head_strict_max (sortRules_pairwise rules)
      ((sortRules_perm rules).mem_iff.mpr hr) hmatch
      (fun y hy => hmax y ((sortRules_perm rules).mem_iff.mp hy))]
    rfl
  · exact fun rules h => sortRules_sorted_id rules h
  · intro e values
    unfold evaluateAutoRules evaluateFirstMatch
    cases ha : e.auto_rules with
    | none => simp [ha, sortRules]
    | some l =>
      cases l with
      | nil => simp [ha, sortRules]
      | cons a t => simp [ha, List.isEmpty]
  · intro rules values m hm
    unfold evaluateFirstMatch at hm
    simp only [Option.getD_some] at hm
    obtain ⟨r, hfind, hmk⟩ := Option.map_eq_some'.mp hm
    have hp := @List.find?_some _ (fun r => ruleMatches (some r) values) r _ hfind
    obtain ⟨l1, l2, he, hall⟩ :=
      find?_decomp (fun r => ruleMatches (some r) values) (sortRules rules) r hfind
    exact ⟨r, l1, l2, he, hall, by simpa using hp, hmk.symm⟩

/-- Witness: with the strictly higher-priority matching rule declared last,
it still wins; a tied list is left in declaration order; a never-matching
singleton yields null. -/
theorem C5_select_first_match_witness :
    evaluateFirstMatch (some [wRuleLow, wRuleHigh]) [] = some (mkMatchResult wRuleHigh) ∧
    sortRules [wRuleLow, wRuleLow] = [wRuleLow, wRuleLow] ∧
    evaluateFirstMatch (some [wRuleLow]) [("x", .str "v")] = none := by
  refine ⟨?_, ?_, ?_⟩
  · refine C5_select_first_match.2.2.2.2.1 [wRuleLow, wRuleHigh] [] wRuleHigh
      (List.mem_cons_of_mem _ (List.mem_cons_self _ _)) (by decide) ?_
    intro y hy
    rcases List.mem_cons.mp hy with rfl | hy
    · right; decide
    · rcases List.mem_cons.mp hy with rfl | hy
      · left; rfl
      · cases hy
  · refine C5_select_first_match.2.2.2.2.2.1 [wRuleLow, wRuleLow] ?_
    refine List.pairwise_cons.mpr ⟨?_, List.pairwise_singleton _ _⟩
    intro y hy
    rcases List.mem_cons.mp hy with rfl | hy
    · exact (by decide : pLe wRuleLow wRuleLow = true)
    · cases hy
  · refine C5_select_first_match.2.1 [wRuleLow] [("x", .str "v")] ?_
    intro r hr
    rcases List.mem_cons.mp hr with rfl | hr
    · decide
    · cases hr

/-! Helper lemmas about `summarizeResults`. -/

theorem summarize_fold_fst (rs : List JudgedItem) (c : Counts) (m : List String) :
    (rs.foldl
      (fun (acc : Counts × List String) r =>
        (bumpCounts acc.1 (normalizeStatus (some r.status)),
         addMissingKeys acc.2 r.missing_inputs)) (c, m)).1
    = rs.foldl (fun c r => bumpCounts c (normalizeStatus (some r.status))) c := by
  induction rs generalizing c m with
  | nil => rfl
  | cons r t ih => simpa using ih _ _

theorem summarize_fold_snd (rs : List JudgedItem) (c : Counts) (m : List String) :
    (rs.foldl
      (fun (acc : Counts × List String) r =>
        (bumpCounts acc.1 (normalizeStatus (some r.status)),
         addMissingKeys acc.2 r.missing_inputs)) (c, m)).2
    = rs.foldl (fun m r => addMissingKeys m r.missing_inputs) m := by
  induction rs generalizing c m with
  | nil => rfl
  | cons r t ih => simpa using ih _ _

theorem normalizeStatus_mem_five (s : Option String) :
    normalizeStatus s = "allow" ∨ normalizeStatus s = "conditional" ∨
    normalizeStatus s = "deny" ∨ normalizeStatus s = "need_input" ∨
    normalizeStatus s = "unknown" := by
  simp only [normalizeStatus]
  split_ifs <;> simp

theorem foldl_bump_count (f : Counts → Nat) (st0 : String)
    (hb : ∀ (c : Counts) (s : Option String),
      f (bumpCounts c (normalizeStatus s)) =
        f c + if normalizeStatus s = st0 then 1 else 0) :
    ∀ (rs : List JudgedItem) (c : Counts),
      f (rs.foldl (fun c r => bumpCounts c (normalizeStatus (some r.status))) c)
        = f c + specCount rs st0 := by
  intro rs
  induction rs with
  | nil => intro c; simp [specCount]
  | cons r t ih =>
    intro c
    simp only [List.foldl_cons, specCount, List.countP_cons] at *
    rw [ih, hb]
    simp only [beq_iff_eq]
    omega

theorem bumpCounts_sum (c : Counts) (st : String) :
    sumCounts (bumpCounts c st) = sumCounts c + 1 := by
  unfold bumpCounts sumCounts
  split_ifs <;> simp <;> omega

theorem foldl_bump_sum (rs : List JudgedItem) :
    ∀ c : Counts,
      sumCounts (rs.foldl (fun c r => bumpCounts c (normalizeStatus (some r.status))) c)
        = sumCounts c + rs.length := by
  induction rs with
  | nil => intro c; simp
  | cons r t ih =>
    intro c
    simp only [List.foldl_cons, List.length_cons]
    rw [ih, bumpCounts_sum]
    omega

theorem addMissingKeys_clean (miss : List MissingInput)
    (h : miss.all cleanKey = true) :
    ∀ acc, addMissingKeys acc miss =
      (miss.map MissingInput.key).foldl
        (fun acc k => if acc.contains k then acc else acc ++ [k]) acc := by
  induction miss with
  | nil => intro acc; rfl
  | cons m t ih =>
    intro acc
    simp only [List.all_cons, Bool.and_eq_true] at h
    obtain ⟨hm, ht⟩ := h
    simp only [cleanKey, Bool.and_eq_true, beq_iff_eq, Bool.not_eq_true', beq_eq_false_iff_ne] at hm
    obtain ⟨htrim, hne⟩ := hm
    have hkey : jsTrim (jsOrStr (some m.key) "") = m.key := by
      simp only [jsOrStr]
      rw [if_neg hne]
      exact htrim
    show addMissingKeys _ (m :: t) = _
    unfold addMissingKeys
    simp only [List.foldl_cons, List.map_cons]
    rw [hkey, if_neg hne]
    exact ih ht _

theorem fold_add_missing (rs : List JudgedItem)
    (h : ∀ r ∈ rs, r.missing_inputs.all cleanKey = true) :
    ∀ acc, rs.foldl (fun m r => addMissingKeys m r.missing_inputs) acc =
      ((rs.map fun r => r.missing_inputs.map MissingInput.key).flatten).foldl
        (fun acc k => if acc.contains k then acc else acc ++ [k]) acc := by
  induction rs with
  | nil => intro acc; rfl
  | cons r t ih =>
    intro acc
    simp only [List.foldl_cons, List.map_cons, List.flatten_cons, List.foldl_append]
    rw [addMissingKeys_clean r.missing_inputs (h r (List.mem_cons_self r t)) acc]
    exact ih (fun x hx => h x (List.mem_cons_of_mem r hx)) _

/-- C4: `summarizeResults` counts items per normalized status into the five
buckets, reports `total` as the number of rows, returns `missing_inputs` as
the first-occurrence de-duplicated union of the rows' missing-input keys,
picks the overall status by the priority deny > need_input > conditional >
allow with fallback unknown, and on the Scenario E statuses yields overall
`need_input` with counts `{allow: 2, conditional: 1, deny: 0,
need_input: 1, unknown: 1}`. -/
theorem C4_summarize :
    (∀ rs : List JudgedItem,
        (summarizeResults rs).counts.allow = specCount rs "allow" ∧
        (summarizeResults rs).counts.conditional = specCount rs "conditional" ∧
        (summarizeResults rs).counts.deny = specCount rs "deny" ∧
        (summarizeResults rs).counts.need_input = specCount rs "need_input" ∧
        (summarizeResults rs).counts.unknown = specCount rs "unknown" ∧
        (summarizeResults rs).total = rs.length ∧
        (summarizeResults rs).status =
          (if 0 < specCount rs "deny" then "deny"
           else if 0 < specCount rs "need_input" then "need_input"
           else if 0 < specCount rs "conditional" then "conditional"
           else if 0 < specCount rs "allow" then "allow"
           else "unknown")) ∧
    (∀ rs : List JudgedItem, (∀ r ∈ rs, r.missing_inputs.all cleanKey = true) →
        (summarizeResults rs).missing_inputs =
          dedupKeys ((rs.map fun r => r.missing_inputs.map MissingInput.key).flatten)) ∧
    ((summarizeResults scenERows).status = "need_input" ∧
     (summarizeResults scenERows).counts = ⟨2, 1, 0, 1, 1⟩) := by
  have hallow : ∀ rs : List JudgedItem,
      (summarizeResults rs).counts.allow = specCount rs "allow" := by
    intro rs
    unfold summarizeResults
    simp only [summarize_fold_fst]
    rw [foldl_bump_count Counts.allow "allow" ?hb rs ⟨0, 0, 0, 0, 0⟩]
    · simp
    case hb =>
      intro c s
      unfold bumpCounts
      split_ifs <;> simp_all
  have hcond : ∀ rs : List JudgedItem,
      (summarizeResults rs).counts.conditional = specCount rs "conditional" := by
    intro rs
    unfold summarizeResults
    simp only [summarize_fold_fst]
    rw [foldl_bump_count Counts.conditional "conditional" ?hb rs ⟨0, 0, 0, 0, 0⟩]
    · simp
    case hb =>
      intro c s
      unfold bumpCounts
      split_ifs <;> simp_all
  have hdeny : ∀ rs : List JudgedItem,
      (summarizeResults rs).counts.deny = specCount rs "deny" := by
    intro rs
    unfold summarizeResults
    simp only [summarize_fold_fst]
    rw [foldl_bump_count Counts.deny "deny" ?hb rs ⟨0, 0, 0, 0, 0⟩]
    · simp
    case hb =>
      intro c s
      unfold bumpCounts
      split_ifs <;> simp_all
  have hneed : ∀ rs : List JudgedItem,
      (summarizeResults rs).counts.need_input = specCount rs "need_input" := by
    intro rs
    unfold summarizeResults
    simp only [summarize_fold_fst]
    rw [foldl_bump_count Counts.need_input "need_input" ?hb rs ⟨0, 0, 0, 0, 0⟩]
    · simp
    case hb =>
      intro c s
      unfold bumpCounts
      split_ifs <;> simp_all
  have hunk : ∀ rs : List JudgedItem,
      (summarizeResults rs).counts.unknown = specCount rs "unknown" := by
    intro rs
    unfold summarizeResults
    simp only [summarize_fold_fst]
    rw [foldl_bump_count Counts.unknown "unknown" ?hb rs ⟨0, 0, 0, 0, 0⟩]
    · simp
    case hb =>
      intro c s
      rcases normalizeStatus_mem_five s with h | h | h | h | h <;>
        rw [h] <;> unfold bumpCounts <;> split_ifs <;> simp_all
  refine ⟨?_, ?_, ?_, ?_⟩
  · intro rs
    refine ⟨hallow rs, hcond rs, hdeny rs, hneed rs, hunk rs, rfl, ?_⟩
    have hstat : (summarizeResults rs).status =
        (if (summarizeResults rs).counts.deny > 0 then "deny"
         else if (summarizeResults rs).counts.need_input > 0 then "need_input"
         else if (summarizeResults rs).counts.conditional > 0 then "conditional"
         else if (summarizeResults rs).counts.allow > 0 then "allow"
         else "unknown") := rfl
    rw [hstat, hdeny rs, hneed rs, hcond rs, hallow rs]
  · intro rs h
    unfold summarizeResults
    simp only [summarize_fold_snd]
    rw [fold_add_missing rs h]
    rfl
  · decide
  · decide

/-- C10: for every judged-item list the summary's `total` equals the sum of
the five bucket counts (the buckets partition the rows), and every status
normalizes into exactly one of the five canonical buckets. -/
theorem C10_counts_partition :
    (∀ rs : List JudgedItem,
        (summarizeResults rs).total =
          (summarizeResults rs).counts.allow + (summarizeResults rs).counts.conditional +
          (summarizeResults rs).counts.deny + (summarizeResults rs).counts.need_input +
          (summarizeResults rs).counts.unknown) ∧
    (∀ s : Option String,
        normalizeStatus s = "allow" ∨ normalizeStatus s = "conditional" ∨
        normalizeStatus s = "deny" ∨ normalizeStatus s = "need_input" ∨
        normalizeStatus s = "unknown") := by
  constructor
  · intro rs
    have h := foldl_bump_sum rs ⟨0, 0, 0, 0, 0⟩
    unfold sumCounts at h
    dsimp only at h
    have htot : (summarizeResults rs).total = rs.length := rfl
    have hcts : (summarizeResults rs).counts =
        rs.foldl (fun c r => bumpCounts c (normalizeStatus (some r.status)))
          ⟨0, 0, 0, 0, 0⟩ := by
      unfold summarizeResults
      simp only [summarize_fold_fst]
    rw [htot, hcts]
    omega
  · exact normalizeStatus_mem_five


/-- C4 witness: the de-duplication clause applied to the Scenario E rows,
whose single missing-input key is trimmed and non-empty. -/
theorem C4_summarize_witness :
    (∀ r ∈ scenERows, r.missing_inputs.all cleanKey = true) ∧
    (summarizeResults scenERows).missing_inputs =
      dedupKeys ((scenERows.map fun r => r.missing_inputs.map MissingInput.key).flatten) :=
  ⟨by decide, C4_summarize.2.1 scenERows (by decide)⟩

/-! C1 and C6: the two applicability filters. -/

/-- C1 counterexample: the claim states that an item whose only numeric
bound has an unknown context metric is never excluded (with the membership
gates satisfied), citing both filters; `passesAppliesTo` in
`functions/index.js` excludes exactly such an item — min_floors is 2, no
membership list is present, and `floors` is absent from the context. -/
theorem C1_counterexample :
    passesAppliesTo (some cexItemMinFloors) {} = false := by decide

/-- C1 amended: lenient-on-unknown holds for `appliesToPass`
(`functions/api/[[path]].js`): whenever the membership gates pass and every
numeric bound whose context metric IS known is satisfied, the item is kept
— bounds whose metric is unknown can never exclude it.  `passesAppliesTo`
(`functions/index.js`) instead excludes whenever a parseable bound's metric
is unknown. -/
theorem C1_amended :
    (∀ (it : ChecklistItem) (ctx : Ctx) (a : AppliesTo),
        it.applies_to = some a →
        pathMemberPass a ctx = true →
        (∀ th c, toNum a.min_gross_area_m2 = some th →
          toNum ctx.gross_area_m2 = some c → mqLe th c = true) →
        (∀ th c, toNum a.min_floors = some th →
          toNum ctx.floors = some c → mqLe th c = true) →
        (∀ th c, toNum a.min_height_m = some th →
          toNum ctx.height_m = some c → mqLe th c = true) →
        appliesToPass (some it) ctx = true) ∧
    (∀ (it : ChecklistItem) (ctx : Ctx) (a : AppliesTo),
        it.applies_to = some a →
        (toNum a.min_floors).isSome = true →
        toNum ctx.floors = none →
        passesAppliesTo (some it) ctx = false) := by
  constructor
  · intro it ctx a ha hm harea hfloors hheight
    have hh : pathHeightCheck a (toNum ctx.height_m) = true := by
      rcases hb : a.min_height_m with _ | mv
      · simp [pathHeightCheck, hb]
      · rcases ht : toNum (some mv) with _ | th
        · simp [pathHeightCheck, hb, ht]
        · rcases hc : toNum ctx.height_m with _ | c
          · simp [pathHeightCheck, hb, ht, hc]
          · have hle := hheight th c (by rw [hb]; exact ht) hc
            simp only [pathHeightCheck, hb, ht, hc, mqLt, Bool.not_eq_true',
              decide_eq_false_iff_not]
            simp only [mqLe, decide_eq_true_eq] at hle
            omega
    have hf : pathFloorsCheck a (toNum ctx.floors) (toNum ctx.height_m) = true := by
      rcases hb : a.min_floors with _ | mv
      · simp only [pathFloorsCheck, hb]
        exact hh
      · rcases ht : toNum (some mv) with _ | th
        · simp only [pathFloorsCheck, hb, ht]
          exact hh
        · rcases hc : toNum ctx.floors with _ | c
          · simp [pathFloorsCheck, hb, ht, hc]
          · have hle := hfloors th c (by rw [hb]; exact ht) hc
            have hneg : mqLt c th = false := by
              simp only [mqLe, decide_eq_true_eq] at hle
              simp only [mqLt, decide_eq_false_iff_not]
              omega
            simp only [pathFloorsCheck, hb, ht, hc, hneg, Bool.false_eq_true, if_false]
            exact hh
    have harea' : pathAreaCheck a (toNum ctx.gross_area_m2) (toNum ctx.floors)
        (toNum ctx.height_m) = true := by
      rcases hb : a.min_gross_area_m2 with _ | mv
      · simp only [pathAreaCheck, hb]
        exact hf
      · rcases ht : toNum (some mv) with _ | th
        · simp only [pathAreaCheck, hb, ht]
          exact hf
        · rcases hc : toNum ctx.gross_area_m2 with _ | c
          · simp [pathAreaCheck, hb, ht, hc]
          · have hle := harea th c (by rw [hb]; exact ht) hc
            have hneg : mqLt c th = false := by
              simp only [mqLe, decide_eq_true_eq] at hle
              simp only [mqLt, decide_eq_false_iff_not]
              omega
            simp only [pathAreaCheck, hb, ht, hc, hneg, Bool.false_eq_true, if_false]
            exact hf
    simp only [appliesToPass, ha, hm, if_true]
    exact harea'
  · intro it ctx a ha hbound hfl
    have hcheck : indexNumCheck a.min_floors (toNum ctx.floors) = false := by
      rcases hb : a.min_floors with _ | mv
      · rw [hb] at hbound
        simp [toNum] at hbound
      · rw [hb] at hbound
        rcases ht : toNum (some mv) with _ | th
        · rw [ht] at hbound
          simp at hbound
        · simp [indexNumCheck, ht, hfl]
    simp only [passesAppliesTo, ha]
    split_ifs with h1 h2 h3 h4 <;> try rfl
    exact absurd h4 (by simp [hcheck])

/-- C1 witness: the lenient clause of the amended claim at the concrete
single-bound item (`min_floors: 2`) with `floors` unknown — `appliesToPass`
keeps the item; and the strict clause at the same input — `passesAppliesTo`
drops it. -/
theorem C1_amended_witness :
    appliesToPass (some cexItemMinFloors) {} = true ∧
    passesAppliesTo (some cexItemMinFloors) {} = false := by
  constructor
  · exact C1_amended.1 cexItemMinFloors {} { min_floors := some (.num 2) } rfl (by decide)
      (fun th c h1 _ => by cases h1)
      (fun th c _ h2 => by cases h2)
      (fun th c h1 _ => by cases h1)
  · exact C1_amended.2 cexItemMinFloors {} { min_floors := some (.num 2) } rfl (by decide) rfl


/-- C6 counterexample: the claim states that a present threshold whose
metric is known and below the bound always excludes, independently of the
other thresholds; in `appliesToPass` (`functions/api/[[path]].js`) an item
with `min_gross_area_m2: 100` (area unknown) and `min_floors: 5` is KEPT
for a context with `floors = 2`, because the unknown-area gate returns true
early and the failing floors threshold is never evaluated. -/
theorem C6_counterexample :
    appliesToPass (some cexItemAreaFloors) cexCtxFloors2 = true := by decide

/-- Helper: if `passesAppliesTo` keeps an item with an `applies_to`, all
three of its numeric gates passed. -/
theorem passesAppliesTo_true_numChecks {it : ChecklistItem} {ctx : Ctx}
    {a : AppliesTo} (ha : it.applies_to = some a)
    (h : passesAppliesTo (some it) ctx = true) :
    indexNumCheck a.min_floors (toNum ctx.floors) = true ∧
    indexNumCheck a.min_height_m (toNum ctx.height_m) = true ∧
    indexNumCheck a.min_gross_area_m2 (toNum ctx.gross_area_m2) = true := by
  simp only [passesAppliesTo, ha] at h
  split_ifs at h with h1 h2 h3 h4 h5 h6
  all_goals first
    | exact absurd h (by decide)
    | (simp only [Bool.not_eq_true', Bool.not_eq_false] at h4 h5 h6
       exact ⟨h4, h5, h6⟩)

/-- C6 amended: in `passesAppliesTo` (`functions/index.js`) the three
numeric thresholds are genuinely conjoined — any present threshold whose
metric is known and below the bound excludes the item, regardless of how
the other thresholds evaluate.  In `appliesToPass`
(`functions/api/[[path]].js`) a present, parseable `min_gross_area_m2`
bound with an unknown area metric short-circuits the whole filter to
inclusion, skipping the floors and height thresholds entirely (and the
floors gate likewise skips the height gate). -/
theorem C6_amended :
    (∀ (it : ChecklistItem) (ctx : Ctx) (a : AppliesTo),
        it.applies_to = some a →
        ((∃ th c, toNum a.min_floors = some th ∧ toNum ctx.floors = some c ∧
            mqLt c th = true) ∨
         (∃ th c, toNum a.min_height_m = some th ∧ toNum ctx.height_m = some c ∧
            mqLt c th = true) ∨
         (∃ th c, toNum a.min_gross_area_m2 = some th ∧
            toNum ctx.gross_area_m2 = some c ∧ mqLt c th = true)) →
        passesAppliesTo (some it) ctx = false) ∧
    (∀ (a : AppliesTo) (curFloors curHeight : Option MQ) (th : MQ),
        toNum a.min_gross_area_m2 = some th →
        pathAreaCheck a none curFloors curHeight = true) ∧
    (∀ (a : AppliesTo) (curHeight : Option MQ) (th : MQ),
        toNum a.min_floors = some th →
        pathFloorsCheck a none curHeight = true) := by
  refine ⟨?_, ?_, ?_⟩
  · intro it ctx a ha hdis
    by_cases hp : passesAppliesTo (some it) ctx = true
    · exfalso
      obtain ⟨hf, hh, har⟩ := passesAppliesTo_true_numChecks ha hp
      have contra : ∀ (bound : Option JsVal) (cur : Option MQ),
          indexNumCheck bound cur = true →
          ∀ th c, toNum bound = some th → cur = some c → mqLt c th = false := by
        intro bound cur hc th c hb hcur
        rcases bound with _ | mv
        · cases hb
        · rcases ht : toNum (some mv) with _ | th'
          · rw [ht] at hb; cases hb
          · rw [ht] at hb
            cases hb
            simp only [indexNumCheck, ht, hcur, Bool.not_eq_true'] at hc
            exact hc
      rcases hdis with ⟨th, c, h1, h2, h3⟩ | ⟨th, c, h1, h2, h3⟩ | ⟨th, c, h1, h2, h3⟩
      · rw [contra a.min_floors (toNum ctx.floors) hf th c h1 h2] at h3; cases h3
      · rw [contra a.min_height_m (toNum ctx.height_m) hh th c h1 h2] at h3; cases h3
      · rw [contra a.min_gross_area_m2 (toNum ctx.gross_area_m2) har th c h1 h2] at h3
        cases h3
    · exact Bool.not_eq_true _ |>.mp hp
  · intro a curFloors curHeight th hth
    rcases hb : a.min_gross_area_m2 with _ | mv
    · rw [hb] at hth; cases hth
    · rw [hb] at hth
      simp [pathAreaCheck, hb, hth]
  · intro a curHeight th hth
    rcases hb : a.min_floors with _ | mv
    · rw [hb] at hth; cases hth
    · rw [hb] at hth
      simp [pathFloorsCheck, hb, hth]

/-- C6 witness: the conjunction clause at a concrete item whose floors
threshold (5) fails against known floors 2 — `passesAppliesTo` excludes it;
and the short-circuit clause at the same `applies_to` — `appliesToPass`
keeps it because the area metric is unknown. -/
theorem C6_amended_witness :
    passesAppliesTo (some cexItemAreaFloors) cexCtxFloors2 = false ∧
    pathAreaCheck { min_floors := some (.num 5), min_gross_area_m2 := some (.num 100) }
      none (some (MQ.ofInt 2)) none = true := by
  constructor
  · exact C6_amended.1 cexItemAreaFloors cexCtxFloors2
      { min_floors := some (.num 5), min_gross_area_m2 := some (.num 100) } rfl
      (Or.inl ⟨MQ.ofInt 5, MQ.ofInt 2, rfl, rfl, by decide⟩)
  · exact C6_amended.2.1 { min_floors := some (.num 5), min_gross_area_m2 := some (.num 100) }
      (some (MQ.ofInt 2)) none (MQ.ofInt 100) rfl


/-! C2 and C3: the judge fallback and the need_input guard. -/

/-- C2 counterexample: the claim states that an item with no matching
rule-engine entry (and hence no matching auto rule) is judged
`conditional` and never `unknown`, citing both judge pipelines; the
`functions/index.js` judge route returns status `"unknown"` with an empty
message for exactly that input. -/
theorem C2_counterexample :
    (judgeRouteItem { id := some "i" } none []).status = "unknown" ∧
    (judgeRouteItem { id := some "i" } none []).message = "" := ⟨rfl, rfl⟩

/-- C2 amended: the `[[path]].js` judge pipeline synthesizes the fallback
`rule_set = {default_result: "conditional", default_message: "⚠️ 추가
검토가 필요합니다."}` for an item with no rule-engine entry, so its judged
status is always `conditional` with the default message; the
`functions/index.js` judge route has no such fallback and judges the same
item `"unknown"` with an empty message. -/
theorem C2_amended :
    (∀ (it : ChecklistItem) (values : ValueSet),
        (pathRouteJudgeItem it none values).status = "conditional" ∧
        (pathRouteJudgeItem it none values).message = "⚠️ 추가 검토가 필요합니다.") ∧
    (∀ (it : ChecklistItem) (values : ValueSet),
        (judgeRouteItem it none values).status = "unknown" ∧
        (judgeRouteItem it none values).message = "") :=
  ⟨fun it values => ⟨rfl, rfl⟩, fun it values => ⟨rfl, rfl⟩⟩

/-- C3 counterexample: the claim states the downgrade uses the default
message and that no judged item ever pairs `need_input` with an empty
`missing_inputs`; the `functions/index.js` judge route returns exactly that
pair for an item with no declared inputs whose rule yields `need_input`,
and `judgeOneItem` (`[[path]].js`), which does downgrade, keeps the
matched rule's message `"m"` rather than the default message. -/
theorem C3_counterexample :
    (judgeRouteItem cexItemNoInputs (some cexEngineNeedInput) []).status = "need_input" ∧
    (judgeRouteItem cexItemNoInputs (some cexEngineNeedInput) []).missing_inputs = [] ∧
    (judgeOneItem cexItemNoInputs (some cexEngineNeedInput) [] false).status = "conditional" ∧
    (judgeOneItem cexItemNoInputs (some cexEngineNeedInput) [] false).message = "m" := by
  refine ⟨rfl, by decide, rfl, rfl⟩

/-- C3 amended: `judgeOneItem` (`functions/api/[[path]].js`) downgrades a
`need_input` status with no missing inputs to `conditional`, keeping the
already-resolved message when it is non-empty and using the default message
only otherwise; consequently no `judgeOneItem` result pairs `need_input`
with an empty `missing_inputs` list.  The `functions/index.js` judge route
has no such guard (see the counterexample). -/
theorem C3_amended :
    (∀ (it : ChecklistItem) (eng : Option EngineItem) (values : ValueSet) (force : Bool),
        ¬((judgeOneItem it eng values force).status = "need_input" ∧
          (judgeOneItem it eng values force).missing_inputs = [])) ∧
    (∀ (it : ChecklistItem) (eng : Option EngineItem) (values : ValueSet) (force : Bool),
        (judgeResolved eng (evaluateAutoRules eng values)).1 = "need_input" →
        computeMissingInputs (buildNeedKeys (some it) eng) values = [] →
        (judgeOneItem it eng values force).status = "conditional" ∧
        (judgeOneItem it eng values force).message =
          (if (judgeResolved eng (evaluateAutoRules eng values)).2 = ""
           then (judgeDefaults eng).2
           else (judgeResolved eng (evaluateAutoRules eng values)).2)) := by
  constructor
  · intro it eng values force hcontra
    obtain ⟨hstat, hmiss⟩ := hcontra
    have hmiss2 : computeMissingInputs (buildNeedKeys (some it) eng) values = [] := hmiss
    unfold judgeOneItem at hstat
    by_cases ha : (judgeResolved eng (evaluateAutoRules eng values)).1 = "need_input"
    · simp [hmiss2, ha] at hstat
    · simp [hmiss2, ha] at hstat
  · intro it eng values force h1 h2
    unfold judgeOneItem
    simp only [h2, List.isEmpty_nil, Bool.not_true, Bool.and_false, Bool.false_and,
      Bool.and_true, Bool.false_eq_true, if_false, h1]
    exact ⟨rfl, rfl⟩

/-- C3 witness: the amended downgrade clause at the concrete
no-inputs item whose rule yields `need_input` with message `"m"`. -/
theorem C3_amended_witness :
    (judgeOneItem cexItemNoInputs (some cexEngineNeedInput) [] false).status = "conditional" ∧
    (judgeOneItem cexItemNoInputs (some cexEngineNeedInput) [] false).message =
      (if (judgeResolved (some cexEngineNeedInput)
            (evaluateAutoRules (some cexEngineNeedInput) [])).2 = ""
       then (judgeDefaults (some cexEngineNeedInput)).2
       else (judgeResolved (some cexEngineNeedInput)
            (evaluateAutoRules (some cexEngineNeedInput) [])).2) :=
  C3_amended.2 cexItemNoInputs (some cexEngineNeedInput) [] false rfl (by decide)


/-! C7: value-set precedence in `mergeJudgeValues`. -/

theorem vlookup_append (m1 m2 : ValueSet) (k : String) :
    vlookup (m1 ++ m2) k =
      (match vlookup m1 k with
       | some v => some v
       | none => vlookup m2 k) := by
  induction m1 with
  | nil => rfl
  | cons p t ih =>
    obtain ⟨k', v⟩ := p
    by_cases h : k' = k
    · simp [vlookup, h]
    · simp only [List.cons_append, vlookup, if_neg h]
      exact ih

theorem vlookup_setIfAbsent_of_isSome (m : ValueSet) (k' : String) (v' : JsVal)
    (k : String) (h : (vlookup m k).isSome = true) :
    vlookup (setIfAbsent m k' v') k = vlookup m k := by
  unfold setIfAbsent
  cases hl : vlookup m k' with
  | some w => rfl
  | none =>
    rw [vlookup_append]
    cases hk : vlookup m k with
    | some w => rfl
    | none => rw [hk] at h; cases h

theorem mergeStrField_pres (m : ValueSet) (k' : String) (v : Option JsVal)
    (k : String) (h : (vlookup m k).isSome = true) :
    vlookup (mergeStrField m k' v) k = vlookup m k := by
  unfold mergeStrField
  cases v with
  | none => rfl
  | some w =>
    show vlookup (if jsTruthy w = true then
        setIfAbsent m k' (JsVal.str (jsTrim (jsToString w))) else m) k = vlookup m k
    by_cases ht : jsTruthy w = true
    · rw [if_pos ht]
      exact vlookup_setIfAbsent_of_isSome m k' _ k h
    · rw [if_neg ht]

theorem mergeNumField_pres (m : ValueSet) (k' : String) (v : Option JsVal)
    (k : String) (h : (vlookup m k).isSome = true) :
    vlookup (mergeNumField m k' v) k = vlookup m k := by
  unfold mergeNumField
  cases hq : toNum v with
  | none => rfl
  | some q => exact vlookup_setIfAbsent_of_isSome m k' _ k h

theorem mergeJudgeValues_pres (ctx : Ctx) (values : ValueSet) (k : String)
    (h : (vlookup values k).isSome = true) :
    vlookup (mergeJudgeValues ctx values) k = vlookup values k := by
  unfold mergeJudgeValues
  have h1 := mergeStrField_pres values "zoning" ctx.zoning k h
  have h1s : (vlookup (mergeStrField values "zoning" ctx.zoning) k).isSome = true := by
    rw [h1]; exact h
  have h2 := mergeStrField_pres _ "use" ctx.use k h1s
  have h2s : (vlookup (mergeStrField (mergeStrField values "zoning" ctx.zoning)
      "use" ctx.use) k).isSome = true := by rw [h2]; exact h1s
  have h3 := mergeStrField_pres _ "jurisdiction" ctx.jurisdiction k h2s
  have h3s : (vlookup (mergeStrField (mergeStrField (mergeStrField values "zoning" ctx.zoning)
      "use" ctx.use) "jurisdiction" ctx.jurisdiction) k).isSome = true := by rw [h3]; exact h2s
  have h4 := mergeNumField_pres _ "floors" ctx.floors k h3s
  have h4s : (vlookup (mergeNumField (mergeStrField (mergeStrField (mergeStrField values
      "zoning" ctx.zoning) "use" ctx.use) "jurisdiction" ctx.jurisdiction)
      "floors" ctx.floors) k).isSome = true := by rw [h4]; exact h3s
  have h5 := mergeNumField_pres _ "height_m" ctx.height_m k h4s
  have h5s : (vlookup (mergeNumField (mergeNumField (mergeStrField (mergeStrField
      (mergeStrField values "zoning" ctx.zoning) "use" ctx.use) "jurisdiction"
      ctx.jurisdiction) "floors" ctx.floors) "height_m" ctx.height_m) k).isSome = true := by
    rw [h5]; exact h4s
  have h6 := mergeNumField_pres _ "gross_area_m2" ctx.gross_area_m2 k h5s
  rw [h6, h5, h4, h3, h2, h1]

/-- C7: merging context fields into the value set never overrides a defined
value-set key — for every key defined in the value set the merged binding
equals the value-set binding, and a key whose merged binding differs from
its value-set binding was necessarily undefined in the value set (context
values only fill undefined keys). -/
theorem C7_merge_precedence :
    ∀ (ctx : Ctx) (values : ValueSet) (k : String),
      (∀ v, vlookup values k = some v → vlookup (mergeJudgeValues ctx values) k = some v) ∧
      (vlookup (mergeJudgeValues ctx values) k ≠ vlookup values k →
        vlookup values k = none) := by
  intro ctx values k
  constructor
  · intro v hv
    rw [mergeJudgeValues_pres ctx values k (by rw [hv]; rfl)]
    exact hv
  · intro hne
    by_contra h0
    have hs : (vlookup values k).isSome = true := Option.isSome_iff_ne_none.mpr h0
    exact hne (mergeJudgeValues_pres ctx values k hs)

/-- C7 witness: with `zoning` defined in the value set as `"A"` and a
contextual zoning of `"B"`, the merged value set still maps `zoning` to
`"A"`. -/
theorem C7_merge_precedence_witness :
    vlookup (mergeJudgeValues { zoning := some (.str "B") } [("zoning", .str "A")])
      "zoning" = some (.str "A") :=
  (C7_merge_precedence { zoning := some (.str "B") } [("zoning", .str "A")] "zoning").1
    (.str "A") rfl


/-! C8: eq/neq string comparison is untrimmed. -/

/-- C8 counterexample: the claim states that eq/neq compare as TRIMMED
strings when not both sides parse as numbers, so `" a"` and `"a"` should be
eq-equal and not neq-unequal; all three `evalCond` implementations compare
the raw `String(...)` values, so eq is false and neq is true. -/
theorem C8_counterexample :
    evalCond (some ⟨some "k", some "eq", .val (.str "a")⟩) [("k", .str " a")] = false ∧
    evalCond (some ⟨some "k", some "neq", .val (.str "a")⟩) [("k", .str " a")] = true := by
  exact ⟨by decide, by decide⟩

/-- C8 amended: when not both sides parse as finite numbers, `eq` compares
`String(actual) === String(target)` WITHOUT trimming (and `neq` is its
negation); values differing only in surrounding whitespace are eq-equal
only when both parse as finite numbers, since `Number()` itself ignores
surrounding whitespace. -/
theorem C8_amended :
    (∀ (c : Cond) (values : ValueSet),
        strFalsy c.key = false → strFalsy c.op = false →
        jsLower (jsTrim (c.op.getD "")) = "eq" →
        ((toNum (vlookup values (jsTrim (c.key.getD "")))).isNone = true ∨
          (argToNum c.value).isNone = true) →
        evalCond (some c) values =
          (jsToStringU (vlookup values (jsTrim (c.key.getD ""))) == argToString c.value)) ∧
    (∀ (c : Cond) (values : ValueSet),
        strFalsy c.key = false → strFalsy c.op = false →
        jsLower (jsTrim (c.op.getD "")) = "neq" →
        ((toNum (vlookup values (jsTrim (c.key.getD "")))).isNone = true ∨
          (argToNum c.value).isNone = true) →
        evalCond (some c) values =
          !(jsToStringU (vlookup values (jsTrim (c.key.getD ""))) == argToString c.value)) ∧
    evalCond (some ⟨some "k", some "eq", .val (.str "5")⟩) [("k", .str " 5")] = true := by
  refine ⟨?_, ?_, by decide⟩
  · intro c values hk hop hoplow hdis
    have hor : (strFalsy c.key || strFalsy c.op) = false := by rw [hk, hop]; rfl
    rcases hdis with h | h
    · have hn : toNum (vlookup values (jsTrim (c.key.getD ""))) = none :=
        Option.isNone_iff_eq_none.mp h
      simp [evalCond, hor, hoplow, hn]
    · have hn : argToNum c.value = none := Option.isNone_iff_eq_none.mp h
      rcases hv : toNum (vlookup values (jsTrim (c.key.getD ""))) with _ | a
      · simp [evalCond, hor, hoplow, hv]
      · simp [evalCond, hor, hoplow, hv, hn]
  · intro c values hk hop hoplow hdis
    have hor : (strFalsy c.key || strFalsy c.op) = false := by rw [hk, hop]; rfl
    rcases hdis with h | h
    · have hn : toNum (vlookup values (jsTrim (c.key.getD ""))) = none :=
        Option.isNone_iff_eq_none.mp h
      simp [evalCond, hor, hoplow, hn]
    · have hn : argToNum c.value = none := Option.isNone_iff_eq_none.mp h
      rcases hv : toNum (vlookup values (jsTrim (c.key.getD ""))) with _ | a
      · simp [evalCond, hor, hoplow, hv]
      · simp [evalCond, hor, hoplow, hv, hn]

/-- C8 witness: the amended eq clause at the concrete non-numeric pair
`"xy "` versus `"xy"` — the condition evaluates to the untrimmed string
comparison, which is false. -/
theorem C8_amended_witness :
    evalCond (some ⟨some "k", some "eq", .val (.str "xy")⟩) [("k", .str "xy ")] =
      (jsToStringU (vlookup [("k", .str "xy ")] (jsTrim ((some "k").getD ""))) ==
        argToString (.val (.str "xy"))) ∧
    evalCond (some ⟨some "k", some "neq", .val (.str "xy")⟩) [("k", .str "xy ")] =
      !(jsToStringU (vlookup [("k", .str "xy ")] (jsTrim ((some "k").getD ""))) ==
        argToString (.val (.str "xy"))) :=
  ⟨C8_amended.1 ⟨some "k", some "eq", .val (.str "xy")⟩ [("k", .str "xy ")]
      (by decide) (by decide) (by decide) (Or.inl (by decide)),
   C8_amended.2.1 ⟨some "k", some "neq", .val (.str "xy")⟩ [("k", .str "xy ")]
      (by decide) (by decide) (by decide) (Or.inl (by decide))⟩

/-! C9: the two missing-input computations. -/

/-- C9 counterexample: the claim states that `computeMissing` skips bare
string inputs and labels each entry with the input's declared label; the
`[[path]].js` pipeline (`buildNeedKeys` + `computeMissingInputs`) labels
the entry for key `"a"` with `"a"` instead of the declared label `"L"`,
and turns the bare string input `"b"` into a required entry instead of
skipping it. -/
theorem C9_counterexample :
    computeMissingInputs
        (buildNeedKeys (some cexItemLabeled) (some { optional_inputs := some [] })) [] =
      [⟨"a", "a"⟩] ∧
    computeMissingInputs (buildNeedKeys (some cexItemBare) none) [] = [⟨"b", "b"⟩] := by
  exact ⟨by decide, by decide⟩

theorem filterMapCongr {α β : Type} {f g : α → Option β} :
    ∀ {l : List α}, (∀ a ∈ l, f a = g a) → l.filterMap f = l.filterMap g := by
  intro l
  induction l with
  | nil => intro h; rfl
  | cons a t ih =>
    intro h
    rw [List.filterMap_cons, List.filterMap_cons, h a (List.mem_cons_self a t),
      ih fun x hx => h x (List.mem_cons_of_mem a hx)]

/-- C9 amended: `buildMissingInputs` (`functions/index.js`) behaves as the
claim says — it skips bare-string inputs and returns, in declaration order,
`{key, label}` entries carrying the declared label (falling back to the key
when the label is absent or empty) for each non-optional missing key —
provided the declared keys carry no surrounding whitespace (the code trims
them).  The `[[path]].js` pipeline instead labels every entry with its key,
and treats a bare-string input as a required key. -/
theorem C9_amended :
    (∀ (it : ChecklistItem) (values : ValueSet) (optionalKeys : List JsVal),
        (it.inputs.getD []).all inputKeyTrimmed = true →
        buildMissingInputs (some it) values optionalKeys =
          claimMissing (it.inputs.getD []) (optionalKeys.map jsToString) values) ∧
    (∀ (needKeys : List String) (values : ValueSet) (m : MissingInput),
        m ∈ computeMissingInputs needKeys values → m.label = m.key) ∧
    (∀ (s : String) (eng : Option EngineItem) (values : ValueSet),
        s ≠ "" →
        (((match eng with
            | some e => e.optional_inputs.getD []
            | none => []).filter jsTruthy).map jsToString).contains s = false →
        computeMissingInputs (buildNeedKeys (some ⟨none, some [.bare s], none⟩) eng) values =
          (if isMissingValue (vlookup values s) then [⟨s, s⟩] else [])) := by
  refine ⟨?_, ?_, ?_⟩
  · intro it values optionalKeys hall
    unfold buildMissingInputs claimMissing
    apply filterMapCongr
    intro inp hinp
    have htr : inputKeyTrimmed inp = true := by
      rw [List.all_eq_true] at hall
      exact hall inp hinp
    cases inp with
    | bare s => rfl
    | field k lab =>
      cases k with
      | none => rfl
      | some s =>
        by_cases hs : s = ""
        · subst hs
          rfl
        · have htrim : jsTrim s = s := by simpa [inputKeyTrimmed] using htr
          simp only [jsOrStr, if_neg hs, htrim]
  · intro needKeys values m hm
    unfold computeMissingInputs at hm
    rw [List.mem_filterMap] at hm
    obtain ⟨k, hk, hf⟩ := hm
    by_cases hmiss : isMissingValue (vlookup values k) = true
    · rw [if_pos hmiss] at hf
      cases hf
      rfl
    · rw [if_neg hmiss] at hf
      cases hf
  · intro s eng values hs hcont
    have hkeys : buildNeedKeys (some ⟨none, some [.bare s], none⟩) eng = [s] := by
      unfold buildNeedKeys
      simp only [Option.getD_some, List.filterMap_cons, List.filterMap_nil, if_neg hs,
        List.filter_cons]
      rw [hcont]
      simp
    rw [hkeys]
    unfold computeMissingInputs
    by_cases hmiss : isMissingValue (vlookup values s) = true
    · rw [if_pos hmiss]
      simp [List.filterMap_cons, hmiss]
    · rw [if_neg hmiss]
      simp only [Bool.not_eq_true] at hmiss
      simp [List.filterMap_cons, hmiss]

/-- C9 witness: the index.js clause at the declared-label item (entry
carries label `L`), and the path clause at the bare-string item. -/
theorem C9_amended_witness :
    buildMissingInputs (some cexItemLabeled) [] [] =
      claimMissing (cexItemLabeled.inputs.getD []) (([] : List JsVal).map jsToString) [] ∧
    computeMissingInputs (buildNeedKeys (some ⟨none, some [.bare "b"], none⟩) none) [] =
      (if isMissingValue (vlookup [] "b") then [⟨"b", "b"⟩] else []) :=
  ⟨C9_amended.1 cexItemLabeled [] [] (by decide),
   C9_amended.2.2 "b" none [] (by decide) (by decide)⟩

end ArchiCheck
